import Mathlib

/-!
# Verification of the documentation assembly pipeline (`documenter.py`)

Shallow embedding of the pipeline in `src/documenter.py`:
Python strings are modelled as `String` / `List Char` (code points), the
`re.findall` scan of `parse_sections` is modelled as an explicit
left-to-right scan, dictionaries as insertion-ordered association lists,
the filesystem as an explicit state, and the generation backend as an
abstract function returning either a response or a caught exception.
Whitespace, `lower` and the regexp `\s` class are modelled over the ASCII
range, which covers every character the pipeline's fixed templates and
markers use.
-/

namespace Documenter

/-- ASCII part of Python's whitespace class (`str.strip`, regex `\s`). -/
def isPyWS (c : Char) : Bool :=
  c == ' ' || c == '\t' || c == '\n' || c == '\r' || c == Char.ofNat 11 || c == Char.ofNat 12

/-- Python `str.strip()` on a list of characters. -/
def pyStrip (s : List Char) : List Char :=
  (((s.dropWhile isPyWS).reverse).dropWhile isPyWS).reverse

/-- Python `str.strip()` on a `String`. -/
def pyStripStr (s : String) : String := (pyStrip s.toList).asString

/-- Python `str.lstrip(':')`: drop leading colon characters. -/
def lstripColon : List Char → List Char
  | [] => []
  | c :: cs => if c == ':' then lstripColon cs else c :: cs

/-- Python `str.lower()` (ASCII range). -/
def lowerAll (s : List Char) : List Char := s.map Char.toLower

/-- `str.replace('\n', ' ')` acts on single characters. -/
def nlToSpace (c : Char) : Char := if c == '\n' then ' ' else c

/-!
## The Section Parser (`parse_sections`, documenter.py lines 108-119)

The regex is `(Purpose|Working|Errors):\s*(.*?)(?=(?:Purpose|Working|Errors):|$)`
compiled with `re.DOTALL` and run through `re.findall`.  `re.findall`
scans left to right: at the first position where one of the three
marker literals followed by `:` matches, the greedy `\s*` consumes the
maximal whitespace run, and the lazy `(.*?)` stops at the first
position where the lookahead matches, i.e. at the next marker literal
or at `$` (end of input, or just before a final newline since
`re.MULTILINE` is not set).  Scanning resumes at the end of the match,
which is the position where the lookahead succeeded.
-/

/-- Does one of the three marker literals (name plus colon) start at this
position?  Returns the captured group-1 name and the rest of the input. -/
def markerHere (s : List Char) : Option (String × List Char) :=
  if "Purpose:".toList.isPrefixOf s then some ("Purpose", s.drop 8)
  else if "Working:".toList.isPrefixOf s then some ("Working", s.drop 8)
  else if "Errors:".toList.isPrefixOf s then some ("Errors", s.drop 7)
  else none

/-- The lazy `(.*?)(?=(?:Purpose|Working|Errors):|$)` capture: consume
characters until a marker starts or `$` matches (end of input, or the
position just before a final newline).  Returns the captured value and
the remaining input at the lookahead position. -/
def capture : List Char → List Char × List Char
  | [] => ([], [])
  | c :: cs =>
    if (markerHere (c :: cs)).isSome || (c == '\n' && cs.isEmpty) then ([], c :: cs)
    else
      ((capture cs).1.cons c, (capture cs).2)

/-- Fuelled `re.findall` scan; fuel strictly above the input length is
always sufficient (`scanFuel_stable`). -/
def scanFuel : Nat → List Char → List (String × List Char)
  | 0, _ => []
  | _ + 1, [] => []
  | fuel + 1, c :: cs =>
    match markerHere (c :: cs) with
    | some kr =>
      (kr.1, (capture (kr.2.dropWhile isPyWS)).1)
        :: scanFuel fuel (capture (kr.2.dropWhile isPyWS)).2
    | none => scanFuel fuel cs

/-- `re.findall(r"(Purpose|Working|Errors):\s*(.*?)(?=(?:Purpose|Working|Errors):|$)", text, re.DOTALL)`. -/
def pyScan (s : List Char) : List (String × List Char) := scanFuel (s.length + 1) s

/-- `clean_val = val.strip().replace('\n', ' ')`. -/
def cleanVal (v : List Char) : List Char := (pyStrip v).map nlToSpace

/-- Lines 113-114: `if clean_val.lower().startswith(key.lower()):
clean_val = clean_val[len(key):].lstrip(':').strip()`. -/
def stripEchoed (key : String) (c : List Char) : List Char :=
  if (lowerAll key.toList).isPrefixOf (lowerAll c) then
    pyStrip (lstripColon (c.drop key.length))
  else c

/-- Lines 112-115: clean a captured value, strip a case-insensitively
echoed label, and substitute the placeholder for an empty result. -/
def processVal (key : String) (v : List Char) : String :=
  if (stripEchoed key (cleanVal v)).isEmpty then "(Not provided)"
  else (stripEchoed key (cleanVal v)).asString

/-- Python `dict` assignment `d[k] = v` on an insertion-ordered
association list: overwrite in place, else append. -/
def upsert {β : Type} (m : List (String × β)) (k : String) (v : β) : List (String × β) :=
  if m.any (fun p => p.1 == k) then m.map (fun p => if p.1 == k then (k, v) else p)
  else m ++ [(k, v)]

/-- Python `d.get(k)` / `k in d`. -/
def dget {β : Type} (m : List (String × β)) (k : String) : Option β :=
  (m.find? (fun p => p.1 == k)).map (fun p => p.2)

/-- The keys of an association list, in order. -/
def keysOf {β : Type} (m : List (String × β)) : List String := m.map (fun p => p.1)

/-- The fixed key list of the final defaulting loop (line 116). -/
def sectionKeys : List String := ["Purpose", "Working", "Errors"]

/-- The `for key, val in match` loop (lines 110-115): build `section_dict`. -/
def buildDict (pairs : List (String × List Char)) : List (String × String) :=
  pairs.foldl (fun d kv => upsert d kv.1 (processVal kv.1 kv.2)) []

/-- The defaulting loop (lines 116-118): `if key not in section_dict:
section_dict[key] = "(Not provided)"`. -/
def ensureKeys (d : List (String × String)) : List (String × String) :=
  sectionKeys.foldl
    (fun d k => if d.any (fun p => p.1 == k) then d else d ++ [(k, "(Not provided)")]) d

/-- `parse_sections` (documenter.py lines 108-119). -/
def parse_sections (text : String) : List (String × String) :=
  ensureKeys (buildDict (pyScan text.toList))

/-!
## Document renderers (`create_docx` lines 121-132, `create_markdown` lines 134-149)

`create_docx` is split into the document it builds (a list of headings
and paragraphs, as produced by the `python-docx` calls) and the save
step, modelled against the filesystem below.  `create_markdown` is split
into the list `lines` the Python code builds and the file write of
`'\n'.join(lines)`.
-/

/-- One element of a docx document: `add_heading(text, level)` or
`add_paragraph(text)`. -/
inductive DocxItem where
  | heading : String → Nat → DocxItem
  | para : String → DocxItem
  deriving DecidableEq

/-- The document built by `create_docx` before `doc.save`. -/
def create_docx (project_summary : String) (file_summaries : List (String × String)) :
    List DocxItem :=
  ([DocxItem.heading "Project Documentation" 0,
    DocxItem.heading "Project Level Summary" 1,
    DocxItem.para project_summary,
    DocxItem.heading "File Level Summaries" 1])
  ++ file_summaries.foldl
      (fun items fs => items ++ [DocxItem.heading fs.1 2, DocxItem.para fs.2]) []

/-- The `lines` list built by `create_markdown` (lines 135-146). -/
def create_markdown_lines (project_summary : String) (file_summaries : List (String × String)) :
    List String :=
  let lines := ["# Project Documentation\n", "## Project Level Summary\n",
    pyStripStr project_summary, "\n---\n", "## File Level Summaries\n"]
  file_summaries.foldl
    (fun lines fs =>
      let parsed := parse_sections fs.2
      ((lines ++ ["### " ++ fs.1 ++ "\n"])
        ++ sectionKeys.map
            (fun sec => "- **" ++ sec ++ ":** " ++ (dget parsed sec).getD "(Not provided)"))
        ++ ["\n---\n"])
    lines

/-- The markdown text written to disk: `'\n'.join(lines)`. -/
def create_markdown (project_summary : String) (file_summaries : List (String × String)) :
    String :=
  String.intercalate "\n" (create_markdown_lines project_summary file_summaries)

/-!
## Corpus collector, generation client and pipeline (lines 33-58, 153-188)

The extracted archive tree is the list of files `os.walk` visits, in
traversal order; each file carries `some content` if reading it as
UTF-8 succeeds and `none` if `open`/`read` raises (the file is skipped
with a warning).  The backend (`client.chat` plus the `.text` access)
is an abstract function from the prompt to either a response text or a
raised exception.
-/

/-- `file.endswith(('.py', '.js', '.java', '.cpp', '.c', '.html', '.css', '.ts', '.php', '.go'))`. -/
def hasAllowedExt (name : String) : Bool :=
  [".py", ".js", ".java", ".cpp", ".c", ".html", ".css", ".ts", ".php", ".go"].any
    (fun ext => ext.toList.isSuffixOf name.toList)

/-- `read_files` (lines 33-45): keep allowed extensions, skip unreadable files. -/
def read_files (tree : List (String × Option String)) : List (String × String) :=
  tree.filterMap
    (fun f => if hasAllowedExt f.1 then f.2.map (fun content => (f.1, content)) else none)

/-- `generate_text` (lines 47-58) applied to the outcome of the backend
call: the response text is stripped; any caught exception is converted
to the fixed sentinel string. -/
def generate_text (backendResult : Except String String) : String :=
  match backendResult with
  | Except.ok text => pyStripStr text
  | Except.error _ => "(Error during generation)"

/-- The project-level prompt template (lines 61-80), with the combined
code capped at 6000 characters. -/
def project_prompt_text (all_code_combined : String) : String :=
  "\nYou are a project documentation expert.\nGiven the full codebase provided below, write a Project Level Summary covering these points:\n\n- Purpose\n- Intuition\n- Technologies Used\n- Scope of Improvement\n\nImportant Rules:\n- Only answer based on the actual code provided.\n- No assumptions, no invented tech stacks.\n- Keep the answers crisp, technical, and clean.\n\nCodebase:\ntext\n"
    ++ (all_code_combined.toList.take 6000).asString ++ "\n\n"

/-- The file-level prompt template (lines 83-105), with the file content
capped at 2000 characters. -/
def file_prompt_text (file_name file_content : String) : String :=
  "\nYou are a professional code documentation assistant.\nAnalyze the following file carefully.\n\nReturn exactly 3 sections, each beginning with the marker:\n- Purpose:\n- Working:\n- Errors:\n\nExample:\nPurpose: ...\nWorking: ...\nErrors: ...\n\nBe clear, technical and concise. No assumptions.\n\nFile Name: "
    ++ file_name ++ "\nCode:\ntext\n" ++ (file_content.toList.take 2000).asString ++ "\n\n"

/-- `generate_project_summary` (lines 61-81). -/
def generate_project_summary (backend : String → Except String String)
    (all_code_combined : String) : String :=
  generate_text (backend (project_prompt_text all_code_combined))

/-- `generate_file_summary` (lines 83-106). -/
def generate_file_summary (backend : String → Except String String)
    (file_name file_content : String) : String :=
  generate_text (backend (file_prompt_text file_name file_content))

/-- The `file_summaries` dict built by the loop in `main` (lines 176-179). -/
def buildFileSummaries (backend : String → Except String String)
    (file_data : List (String × String)) : List (String × String) :=
  file_data.foldl
    (fun acc f => upsert acc f.1 (generate_file_summary backend f.1 f.2)) []

/-- `main` (lines 153-188) after archive extraction, as a function of the
extracted tree: returns the number of backend calls made and, unless the
pipeline stopped early because no code files were found, the two
rendered documents. -/
def main (backend : String → Except String String)
    (tree : List (String × Option String)) : Nat × Option (List DocxItem × String) :=
  let file_data := read_files tree
  if file_data.isEmpty then (0, none)
  else
    let all_code_combined := String.intercalate "\n\n" (file_data.map (fun f => f.2))
    let project_summary := generate_project_summary backend all_code_combined
    let file_summaries := buildFileSummaries backend file_data
    (1 + file_data.length,
      some (create_docx project_summary file_summaries,
            create_markdown project_summary file_summaries))

/-!
## Filesystem model for the save/write steps

`os.path.dirname`, `os.makedirs(..., exist_ok=True)`, `open(path, 'w')`
(truncate and write, requiring the parent directory to exist) and
`doc.save(path)` (likewise).  Relative POSIX paths; the current
directory always exists, so a path with an empty directory component
can be written, but `os.makedirs('')` raises `FileNotFoundError`.
-/

/-- `os.path.dirname` for relative POSIX paths: everything before the
last slash, `""` when there is none. -/
def dirname (p : String) : String :=
  ((p.toList.reverse.dropWhile (fun c => !(c == '/'))).tail).reverse.asString

/-- What a written file holds: markdown text or a docx document. -/
inductive FileData where
  | mdFile : String → FileData
  | docxFile : List DocxItem → FileData
  deriving DecidableEq

/-- Directories that exist and files that exist with their contents. -/
structure FS where
  dirs : List String
  files : List (String × FileData)
  deriving DecidableEq

/-- `os.makedirs(d, exist_ok=True)`. -/
def os_makedirs (fs : FS) (d : String) : Except String FS :=
  if d = "" then Except.error "FileNotFoundError"
  else Except.ok ⟨if fs.dirs.contains d then fs.dirs else fs.dirs ++ [d], fs.files⟩

/-- Write a file, fully overwriting any existing one; fails when the
parent directory does not exist. -/
def fsWrite (fs : FS) (p : String) (content : FileData) : Except String FS :=
  if dirname p = "" || fs.dirs.contains (dirname p) then
    Except.ok ⟨fs.dirs, upsert fs.files p content⟩
  else Except.error "FileNotFoundError"

/-- The save step of `create_docx` (line 132): `doc.save(output_path)`.
No directory is created. -/
def create_docx_io (fs : FS) (project_summary : String)
    (file_summaries : List (String × String)) (output_path : String) : Except String FS :=
  fsWrite fs output_path (FileData.docxFile (create_docx project_summary file_summaries))

/-- The write step of `create_markdown` (lines 147-149):
`os.makedirs(os.path.dirname(output_path), exist_ok=True)` followed by
the file write. -/
def create_markdown_io (fs : FS) (project_summary : String)
    (file_summaries : List (String × String)) (output_path : String) : Except String FS :=
  match os_makedirs fs (dirname output_path) with
  | Except.error e => Except.error e
  | Except.ok fs1 =>
    fsWrite fs1 output_path (FileData.mdFile (create_markdown project_summary file_summaries))

/-! ## Auxiliary definitions used by the statements

`hasSub` decides substring occurrence; `segText`/`goodBody`/`goodSegs`
build the marker/body segment texts the schematic claims quantify over;
`isEchoing` is the echo condition of lines 113-114 applied to a raw
body; the `…Block` definitions are the spec-shaped description of the
two rendered documents (§4.5/§6), to be compared with the renderer
loops; `docxH2` extracts the level-2 heading names of a docx document.
-/

/-- Decides whether `pat` occurs as a contiguous substring of `s`. -/
def hasSub (pat : List Char) : List Char → Bool
  | [] => pat.isEmpty
  | c :: cs => pat.isPrefixOf (c :: cs) || hasSub pat cs

/-- The raw text assembled from marker-labelled segments. -/
def segText : List (String × List Char) → List Char
  | [] => []
  | s :: rest => s.1.toList ++ ':' :: (s.2 ++ segText rest)

/-- A body is well formed w.r.t. the continuation that follows it when
no marker match can start inside it (also not one straddling into the
continuation). -/
def goodBody (b cont : List Char) : Bool :=
  b.tails.all (fun s => s.isEmpty || (markerHere (s ++ cont)).isNone)

/-- All segments carry one of the three marker names, every body
contains a non-whitespace character, and no body contains a marker
match. -/
def goodSegs : List (String × List Char) → Bool
  | [] => true
  | s :: rest =>
    sectionKeys.contains s.1 && !(s.2.dropWhile isPyWS).isEmpty
      && goodBody s.2 (segText rest) && goodSegs rest

/-- The condition of lines 113-114 applied to a raw body: does the
cleaned body begin, case-insensitively, with the marker name? -/
def isEchoing (key : String) (b : List Char) : Bool :=
  (lowerAll key.toList).isPrefixOf (lowerAll (cleanVal b))

/-- The fixed header lines of the Markdown document (spec-shaped). -/
def mdHeaderBlock (project_summary : String) : List String :=
  ["# Project Documentation\n", "## Project Level Summary\n",
   pyStripStr project_summary, "\n---\n", "## File Level Summaries\n"]

/-- The per-file lines of the Markdown document (spec-shaped). -/
def mdFileBlock (fs : String × String) : List String :=
  ["### " ++ fs.1 ++ "\n",
   "- **Purpose:** " ++ (dget (parse_sections fs.2) "Purpose").getD "(Not provided)",
   "- **Working:** " ++ (dget (parse_sections fs.2) "Working").getD "(Not provided)",
   "- **Errors:** " ++ (dget (parse_sections fs.2) "Errors").getD "(Not provided)",
   "\n---\n"]

/-- The fixed header items of the docx document (spec-shaped). -/
def docxHeaderBlock (project_summary : String) : List DocxItem :=
  [DocxItem.heading "Project Documentation" 0,
   DocxItem.heading "Project Level Summary" 1,
   DocxItem.para project_summary,
   DocxItem.heading "File Level Summaries" 1]

/-- The per-file items of the docx document (spec-shaped). -/
def docxFileBlock (fs : String × String) : List DocxItem :=
  [DocxItem.heading fs.1 2, DocxItem.para fs.2]

/-- The names carried by the level-2 headings of a docx document. -/
def docxH2 (doc : List DocxItem) : List String :=
  doc.filterMap (fun item =>
    match item with
    | DocxItem.heading t 2 => some t
    | _ => none)

/-! ## Lemmas about the association-list dictionary -/

theorem dget_cons {β : Type} (p : String × β) (m : List (String × β)) (k : String) :
    dget (p :: m) k = if p.1 == k then some p.2 else dget m k := by
  cases hb : p.1 == k <;> simp [dget, List.find?_cons, hb]

theorem keysOf_cons {β : Type} (p : String × β) (m : List (String × β)) :
    keysOf (p :: m) = p.1 :: keysOf m := rfl

theorem mem_keysOf_iff_any {β : Type} (m : List (String × β)) (k : String) :
    m.any (fun p => p.1 == k) = true ↔ k ∈ keysOf m := by
  induction m with
  | nil => simp [keysOf]
  | cons p m ih =>
    cases hb : p.1 == k
    · have hne : ¬p.1 = k := by simpa using hb
      have hne2 : k ≠ p.1 := Ne.symm hne
      simp [keysOf_cons, hb, ih, hne2]
    · have he : p.1 = k := by simpa using hb
      simp [keysOf_cons, hb, he]

theorem dget_isSome_iff {β : Type} (m : List (String × β)) (k : String) :
    (dget m k).isSome = true ↔ k ∈ keysOf m := by
  induction m with
  | nil => simp [dget, keysOf]
  | cons p m ih =>
    cases hb : p.1 == k
    · have hne : ¬p.1 = k := by simpa using hb
      have hne2 : k ≠ p.1 := Ne.symm hne
      simp [dget_cons, keysOf_cons, hb, ih, hne2]
    · have he : p.1 = k := by simpa using hb
      simp [dget_cons, keysOf_cons, hb, he]

theorem dget_eq_none_of_not_mem {β : Type} {m : List (String × β)} {k : String}
    (h : k ∉ keysOf m) : dget m k = none := by
  have h2 := (dget_isSome_iff m k).not.mpr h
  cases hd : dget m k
  · rfl
  · rw [hd] at h2; simp at h2

theorem dget_mem {β : Type} {m : List (String × β)} {k : String} {v : β}
    (h : dget m k = some v) : (k, v) ∈ m := by
  induction m with
  | nil => simp [dget] at h
  | cons p m ih =>
    rw [dget_cons] at h
    cases hb : p.1 == k
    · rw [hb, if_neg (by simp)] at h
      exact List.mem_cons_of_mem _ (ih h)
    · rw [hb, if_pos rfl] at h
      have he : p.1 = k := by simpa using hb
      have hv : p.2 = v := by simpa using h
      have hp : p = (k, v) := by
        cases p
        simp_all
      rw [← hp]
      exact List.mem_cons_self _ _

theorem dget_append {β : Type} (m m' : List (String × β)) (k : String) :
    dget (m ++ m') k = (dget m k).or (dget m' k) := by
  simp only [dget, List.find?_append]
  cases m.find? (fun p => p.1 == k) <;> simp

theorem keysOf_map_update {β : Type} (m : List (String × β)) (k : String) (v : β) :
    keysOf (m.map (fun p => if p.1 == k then (k, v) else p)) = keysOf m := by
  induction m with
  | nil => rfl
  | cons p m ih =>
    cases hb : p.1 == k
    · simp only [List.map_cons, hb, Bool.false_eq_true, if_false, keysOf_cons, ih]
    · have he : p.1 = k := by simpa using hb
      rw [List.map_cons, if_pos hb, keysOf_cons, keysOf_cons, ih, he]

theorem keysOf_upsert {β : Type} (m : List (String × β)) (k : String) (v : β) :
    keysOf (upsert m k v) = if k ∈ keysOf m then keysOf m else keysOf m ++ [k] := by
  unfold upsert
  by_cases h : k ∈ keysOf m
  · rw [if_pos ((mem_keysOf_iff_any m k).mpr h), if_pos h, keysOf_map_update]
  · rw [if_neg (fun hc => h ((mem_keysOf_iff_any m k).mp hc)), if_neg h]
    simp [keysOf]

theorem mem_keysOf_upsert {β : Type} (m : List (String × β)) (k k' : String) (v : β) :
    k' ∈ keysOf (upsert m k v) ↔ k' ∈ keysOf m ∨ k' = k := by
  rw [keysOf_upsert]
  by_cases h : k ∈ keysOf m
  · rw [if_pos h]
    constructor
    · exact Or.inl
    · rintro (hm | rfl)
      · exact hm
      · exact h
  · rw [if_neg h]; simp

theorem nodup_keysOf_upsert {β : Type} {m : List (String × β)} (k : String) (v : β)
    (h : (keysOf m).Nodup) : (keysOf (upsert m k v)).Nodup := by
  rw [keysOf_upsert]
  by_cases hm : k ∈ keysOf m
  · rwa [if_pos hm]
  · rw [if_neg hm]
    simpa [List.nodup_append] using ⟨h, hm⟩

theorem dget_map_update_self {β : Type} (m : List (String × β)) (k : String) (v : β)
    (h : k ∈ keysOf m) :
    dget (m.map (fun p => if p.1 == k then (k, v) else p)) k = some v := by
  induction m with
  | nil => simp [keysOf] at h
  | cons p m ih =>
    cases hb : p.1 == k
    · have hne : ¬p.1 = k := by simpa using hb
      have hm : k ∈ keysOf m := by
        rcases (by simpa [keysOf_cons] using h : k = p.1 ∨ k ∈ keysOf m) with he | hm
        · exact absurd he.symm hne
        · exact hm
      simp only [List.map_cons, hb, Bool.false_eq_true, if_false, dget_cons]
      exact ih hm
    · simp only [List.map_cons, hb, if_true, dget_cons]
      rw [if_pos (by simp)]

theorem dget_map_update_ne {β : Type} (m : List (String × β)) (k k' : String) (v : β)
    (h : k' ≠ k) :
    dget (m.map (fun p => if p.1 == k then (k, v) else p)) k' = dget m k' := by
  induction m with
  | nil => rfl
  | cons p m ih =>
    cases hb : p.1 == k
    · simp only [List.map_cons, hb, Bool.false_eq_true, if_false, dget_cons, ih]
    · have he : p.1 = k := by simpa using hb
      have h1 : ((k, v).1 == k') = false := by simpa using Ne.symm h
      have h2 : (p.1 == k') = false := by rw [he]; simpa using Ne.symm h
      simp only [List.map_cons, hb, if_true, dget_cons, h1, h2, Bool.false_eq_true, if_false, ih]

theorem dget_upsert_self {β : Type} (m : List (String × β)) (k : String) (v : β) :
    dget (upsert m k v) k = some v := by
  unfold upsert
  by_cases h : k ∈ keysOf m
  · rw [if_pos ((mem_keysOf_iff_any m k).mpr h)]
    exact dget_map_update_self m k v h
  · rw [if_neg (fun hc => h ((mem_keysOf_iff_any m k).mp hc)), dget_append,
      dget_eq_none_of_not_mem h]
    simp [dget, List.find?_cons]

theorem dget_upsert_ne {β : Type} (m : List (String × β)) (k k' : String) (v : β)
    (h : k' ≠ k) : dget (upsert m k v) k' = dget m k' := by
  unfold upsert
  by_cases hm : m.any (fun p => p.1 == k) = true
  · rw [if_pos hm]
    exact dget_map_update_ne m k k' v h
  · rw [if_neg hm, dget_append]
    have h1 : dget [(k, v)] k' = none := by
      simp [dget, List.find?_cons, show (k == k') = false by simpa using Ne.symm h]
    rw [h1]
    cases dget m k' <;> simp

theorem map_update_idem {β : Type} (m : List (String × β)) (k : String) (v : β) :
    (m.map (fun p => if p.1 == k then (k, v) else p)).map
        (fun p => if p.1 == k then (k, v) else p)
      = m.map (fun p => if p.1 == k then (k, v) else p) := by
  induction m with
  | nil => rfl
  | cons p m ih =>
    cases hb : p.1 == k
    · simp only [List.map_cons, hb, Bool.false_eq_true, if_false, ih]
    · simp only [List.map_cons, hb, if_true, ih, List.cons.injEq, and_true]
      rw [if_pos (by simp)]

theorem upsert_idem {β : Type} (m : List (String × β)) (k : String) (v : β) :
    upsert (upsert m k v) k v = upsert m k v := by
  have hmem : k ∈ keysOf (upsert m k v) := (mem_keysOf_upsert m k k v).mpr (Or.inr rfl)
  conv_lhs => rw [upsert]
  rw [if_pos ((mem_keysOf_iff_any _ k).mpr hmem)]
  unfold upsert
  by_cases h : m.any (fun p => p.1 == k) = true
  · rw [if_pos h]
    exact map_update_idem m k v
  · rw [if_neg h]
    have hall : ∀ p ∈ m, (p.1 == k) = false := by
      intro p hp
      cases hb : p.1 == k
      · rfl
      · exact absurd (List.any_eq_true.mpr ⟨p, hp, hb⟩) h
    rw [List.map_append]
    congr 1
    · calc m.map (fun p => if p.1 == k then (k, v) else p) = m.map id := by
            apply List.map_congr_left
            intro p hp
            rw [hall p hp]
            simp
        _ = m := List.map_id m
    · simp

/-! ## Lemmas about the `re.findall` scan -/

theorem hasSub_of_occurs {pat s : List Char} (h : pat <:+: s) : hasSub pat s = true := by
  induction s with
  | nil =>
    have : pat = [] := by simpa using List.eq_nil_of_infix_nil h
    simp [hasSub, this]
  | cons c cs ih =>
    rcases (List.infix_cons_iff.mp h) with hp | hi
    · simp [hasSub, List.isPrefixOf_iff_prefix.mpr hp]
    · simp [hasSub, ih hi]

theorem markerHere_cases {s : List Char} {kr : String × List Char}
    (h : markerHere s = some kr) :
    kr.1 ∈ sectionKeys ∧ (kr.1.toList ++ [':']) <+: s
      ∧ kr.2 = s.drop (kr.1.length + 1) := by
  unfold markerHere at h
  split_ifs at h with h1 h2 h3
  · cases h
    exact ⟨by simp [sectionKeys], by simpa using List.isPrefixOf_iff_prefix.mp h1, rfl⟩
  · cases h
    exact ⟨by simp [sectionKeys], by simpa using List.isPrefixOf_iff_prefix.mp h2, rfl⟩
  · cases h
    exact ⟨by simp [sectionKeys], by simpa using List.isPrefixOf_iff_prefix.mp h3, rfl⟩

theorem markerHere_length {s : List Char} {kr : String × List Char}
    (h : markerHere s = some kr) : kr.2.length + 7 ≤ s.length := by
  obtain ⟨hk, hpre, hr⟩ := markerHere_cases h
  have hlen : kr.1.length + 1 ≤ s.length := by
    have := hpre.length_le
    simpa using this
  have h1 : 6 ≤ kr.1.length := by
    rcases (by simpa [sectionKeys] using hk) with h | h | h <;> (rw [h]; decide)
  rw [hr, List.length_drop]
  omega

theorem markerHere_rest_suffix {s : List Char} {kr : String × List Char}
    (h : markerHere s = some kr) : kr.2 <:+ s := by
  obtain ⟨-, -, hr⟩ := markerHere_cases h
  rw [hr]
  exact List.drop_suffix _ _

theorem capture_snd_suffix (s : List Char) : (capture s).2 <:+ s := by
  induction s with
  | nil => exact List.suffix_refl _
  | cons c cs ih =>
    unfold capture
    split_ifs
    · exact List.suffix_refl _
    · exact ih.trans (List.suffix_cons c cs)

theorem capture_snd_length (s : List Char) : (capture s).2.length ≤ s.length :=
  (capture_snd_suffix s).length_le

theorem capture_fst_append (s : List Char) : (capture s).1 ++ (capture s).2 = s := by
  induction s with
  | nil => rfl
  | cons c cs ih =>
    unfold capture
    split_ifs
    · rfl
    · simpa using ih

/-- The remaining input after one scan step of the marker branch. -/
theorem scan_step_length {s : List Char} {kr : String × List Char}
    (h : markerHere s = some kr) :
    (capture (kr.2.dropWhile isPyWS)).2.length + 7 ≤ s.length := by
  have h1 := capture_snd_length (kr.2.dropWhile isPyWS)
  have h2 : (kr.2.dropWhile isPyWS).length ≤ kr.2.length :=
    (List.dropWhile_suffix isPyWS).length_le
  have h3 := markerHere_length h
  omega

theorem scanFuel_stable : ∀ (n m : Nat) (s : List Char), s.length < n → s.length < m →
    scanFuel n s = scanFuel m s := by
  intro n
  induction n with
  | zero => intro m s h; omega
  | succ n ih =>
    intro m s hn hm
    cases m with
    | zero => omega
    | succ m =>
      cases s with
      | nil => rfl
      | cons c cs =>
        unfold scanFuel
        cases hmk : markerHere (c :: cs) with
        | none =>
          simp only []
          have h1 : cs.length < n := by
            simp only [List.length_cons] at hn
            omega
          have h2 : cs.length < m := by
            simp only [List.length_cons] at hm
            omega
          exact ih m cs h1 h2
        | some kr =>
          simp only []
          have hs := scan_step_length hmk
          simp only [List.length_cons] at hn hm hs
          have h1 : (capture (kr.2.dropWhile isPyWS)).2.length < n := by omega
          have h2 : (capture (kr.2.dropWhile isPyWS)).2.length < m := by omega
          rw [ih m _ h1 h2]

theorem pyScan_eq_scanFuel {s : List Char} {n : Nat} (h : s.length < n) :
    pyScan s = scanFuel n s :=
  scanFuel_stable (s.length + 1) n s (Nat.lt_succ_self _) h

/-- Every pair the scan produces carries one of the three marker names,
and the marker (name plus colon) occurs in the scanned text. -/
theorem scanFuel_pairs : ∀ (n : Nat) (s : List Char) (k : String) (v : List Char),
    (k, v) ∈ scanFuel n s → k ∈ sectionKeys ∧ (k.toList ++ [':']) <:+: s := by
  intro n
  induction n with
  | zero => intro s k v h; simp [scanFuel] at h
  | succ n ih =>
    intro s k v h
    match s with
    | [] => simp [scanFuel] at h
    | c :: cs =>
      unfold scanFuel at h
      cases hmk : markerHere (c :: cs) with
      | none =>
        rw [hmk] at h
        obtain ⟨hk, hin⟩ := ih cs k v h
        exact ⟨hk, hin.trans (List.suffix_cons c cs).isInfix⟩
      | some kr =>
        rw [hmk] at h
        simp only [List.mem_cons] at h
        rcases h with h | h
        · obtain ⟨hk, hpre, -⟩ := markerHere_cases hmk
          have hk1 : k = kr.1 := by
            have := congrArg Prod.fst h
            simpa using this
          exact ⟨hk1 ▸ hk, hk1 ▸ hpre.isInfix⟩
        · obtain ⟨hk, hin⟩ := ih _ k v h
          have hsuf : (capture (kr.2.dropWhile isPyWS)).2 <:+ c :: cs :=
            ((capture_snd_suffix _).trans (List.dropWhile_suffix isPyWS)).trans
              (markerHere_rest_suffix hmk)
          exact ⟨hk, hin.trans hsuf.isInfix⟩

theorem pyScan_pairs {s : List Char} {k : String} {v : List Char}
    (h : (k, v) ∈ pyScan s) : k ∈ sectionKeys ∧ (k.toList ++ [':']) <:+: s :=
  scanFuel_pairs _ s k v h

theorem pyScan_eq_nil_of_no_marker {s : List Char}
    (hp : hasSub "Purpose:".toList s = false)
    (hw : hasSub "Working:".toList s = false)
    (he : hasSub "Errors:".toList s = false) : pyScan s = [] := by
  rcases hs : pyScan s with _ | ⟨⟨k, v⟩, rest⟩
  · rfl
  · exfalso
    have hmem : (k, v) ∈ pyScan s := by rw [hs]; exact List.mem_cons_self _ _
    obtain ⟨hk, hin⟩ := pyScan_pairs hmem
    rcases (by simpa [sectionKeys] using hk) with rfl | rfl | rfl
    · rw [show ("Purpose".toList ++ [':']) = "Purpose:".toList from rfl] at hin
      rw [hasSub_of_occurs hin] at hp
      exact Bool.true_eq_false.mp hp
    · rw [show ("Working".toList ++ [':']) = "Working:".toList from rfl] at hin
      rw [hasSub_of_occurs hin] at hw
      exact Bool.true_eq_false.mp hw
    · rw [show ("Errors".toList ++ [':']) = "Errors:".toList from rfl] at hin
      rw [hasSub_of_occurs hin] at he
      exact Bool.true_eq_false.mp he

/-! ## Lemmas about `buildDict` and `ensureKeys` -/

theorem mem_keysOf_buildDict_aux (ps : List (String × List Char)) :
    ∀ (d : List (String × String)) (k : String),
    (k ∈ keysOf (ps.foldl (fun d kv => upsert d kv.1 (processVal kv.1 kv.2)) d)
      ↔ k ∈ keysOf d ∨ k ∈ ps.map (fun p => p.1)) := by
  induction ps with
  | nil => simp
  | cons q ps ih =>
    intro d k
    simp only [List.foldl_cons, List.map_cons, List.mem_cons]
    rw [ih, mem_keysOf_upsert]
    tauto

theorem mem_keysOf_buildDict (ps : List (String × List Char)) (k : String) :
    k ∈ keysOf (buildDict ps) ↔ k ∈ ps.map (fun p => p.1) := by
  unfold buildDict
  rw [mem_keysOf_buildDict_aux]
  simp [keysOf]

theorem nodup_keysOf_buildDict_aux (ps : List (String × List Char)) :
    ∀ (d : List (String × String)), (keysOf d).Nodup →
    (keysOf (ps.foldl (fun d kv => upsert d kv.1 (processVal kv.1 kv.2)) d)).Nodup := by
  induction ps with
  | nil => exact fun d h => h
  | cons q ps ih =>
    intro d h
    exact ih _ (nodup_keysOf_upsert _ _ h)

theorem nodup_keysOf_buildDict (ps : List (String × List Char)) :
    (keysOf (buildDict ps)).Nodup :=
  nodup_keysOf_buildDict_aux ps [] (by simp [keysOf])

/-- Last-write-wins through the `for key, val in match` loop. -/
theorem dget_buildDict_aux (ps : List (String × List Char)) :
    ∀ (d : List (String × String)) (k : String),
    dget (ps.foldl (fun d kv => upsert d kv.1 (processVal kv.1 kv.2)) d) k =
      (match (ps.filter (fun p => p.1 == k)).getLast? with
       | some p => some (processVal p.1 p.2)
       | none => dget d k) := by
  induction ps with
  | nil => intro d k; rfl
  | cons q ps ih =>
    intro d k
    simp only [List.foldl_cons]
    rw [ih]
    cases hb : q.1 == k
    · have hf : (q :: ps).filter (fun p => p.1 == k) = ps.filter (fun p => p.1 == k) := by
        simp [List.filter_cons, hb]
      rw [hf]
      have hne : k ≠ q.1 := fun he => by rw [he] at hb; simp at hb
      cases hl : (ps.filter (fun p => p.1 == k)).getLast? <;>
        simp only [dget_upsert_ne d q.1 k _ hne]
    · have he : q.1 = k := by simpa using hb
      have hf : (q :: ps).filter (fun p => p.1 == k) = q :: ps.filter (fun p => p.1 == k) := by
        simp [List.filter_cons, hb]
      rw [hf]
      cases hl : (ps.filter (fun p => p.1 == k)).getLast? with
      | none =>
        have hnil : ps.filter (fun p => p.1 == k) = [] := by
          rcases hc : ps.filter (fun p => p.1 == k) with _ | ⟨x, xs⟩
          · exact hc
          · rw [hc] at hl
            rcases List.getLast?_isSome.mpr (List.cons_ne_nil x xs) with h2
            rw [hl] at h2
            simp at h2
        rw [hnil]
        show dget (upsert d q.1 (processVal q.1 q.2)) k = some (processVal q.1 q.2)
        rw [← he]
        exact dget_upsert_self d q.1 _
      | some p =>
        have hne : ps.filter (fun p => p.1 == k) ≠ [] := by
          intro hc
          rw [hc] at hl
          simp at hl
        obtain ⟨x, xs, hxs⟩ := List.exists_cons_of_ne_nil hne
        rw [hxs]
        rw [hxs] at hl
        rw [List.getLast?_cons_cons, hl]

theorem dget_buildDict (ps : List (String × List Char)) (k : String) :
    dget (buildDict ps) k =
      (match (ps.filter (fun p => p.1 == k)).getLast? with
       | some p => some (processVal p.1 p.2)
       | none => none) := by
  unfold buildDict
  rw [dget_buildDict_aux]
  cases (ps.filter (fun p => p.1 == k)).getLast? <;> rfl

/-- `dget` through one step of the defaulting loop. -/
theorem dget_ensure_step (d : List (String × String)) (k k' : String) :
    dget (if d.any (fun p => p.1 == k) then d else d ++ [(k, "(Not provided)")]) k' =
      if k' = k then some ((dget d k').getD "(Not provided)") else dget d k' := by
  by_cases h : d.any (fun p => p.1 == k) = true
  · rw [if_pos h]
    by_cases hk : k' = k
    · subst hk
      have hmem : k' ∈ keysOf d := (mem_keysOf_iff_any d k').mp h
      have hs := (dget_isSome_iff d k').mpr hmem
      rw [if_pos rfl]
      cases hd : dget d k'
      · rw [hd] at hs; simp at hs
      · simp
    · rw [if_neg hk]
  · rw [if_neg h]
    by_cases hk : k' = k
    · subst hk
      have hmem : k' ∉ keysOf d := fun hm => h ((mem_keysOf_iff_any d k').mpr hm)
      rw [dget_append, dget_eq_none_of_not_mem hmem, if_pos rfl]
      simp [dget, List.find?_cons]
    · rw [if_neg hk, dget_append]
      have hnone : dget [(k, "(Not provided)")] k' = none := by
        simp [dget, List.find?_cons, show (k == k') = false by simpa using Ne.symm hk]
      rw [hnone]
      cases dget d k' <;> simp

theorem dget_ensureKeys_mem (d : List (String × String)) (k : String)
    (hk : k ∈ sectionKeys) :
    dget (ensureKeys d) k = some ((dget d k).getD "(Not provided)") := by
  simp only [ensureKeys, sectionKeys, List.foldl_cons, List.foldl_nil]
  rw [dget_ensure_step, dget_ensure_step, dget_ensure_step]
  rcases (by simpa [sectionKeys] using hk : k = "Purpose" ∨ k = "Working" ∨ k = "Errors")
    with rfl | rfl | rfl
  · simp
  · simp
  · simp

theorem mem_keysOf_ensure_step (d : List (String × String)) (k k' : String) :
    k' ∈ keysOf (if d.any (fun p => p.1 == k) then d else d ++ [(k, "(Not provided)")])
      ↔ k' ∈ keysOf d ∨ k' = k := by
  by_cases h : d.any (fun p => p.1 == k) = true
  · rw [if_pos h]
    constructor
    · exact Or.inl
    · rintro (hm | rfl)
      · exact hm
      · exact (mem_keysOf_iff_any d k').mp h
  · rw [if_neg h]
    simp [keysOf]

theorem mem_keysOf_ensureKeys (d : List (String × String)) (k : String) :
    k ∈ keysOf (ensureKeys d) ↔ k ∈ keysOf d ∨ k ∈ sectionKeys := by
  simp only [ensureKeys, sectionKeys, List.foldl_cons, List.foldl_nil]
  rw [mem_keysOf_ensure_step, mem_keysOf_ensure_step, mem_keysOf_ensure_step]
  simp only [sectionKeys, List.mem_cons, List.not_mem_nil, or_false]
  tauto

theorem nodup_keysOf_ensure_step (d : List (String × String)) (k : String)
    (h : (keysOf d).Nodup) :
    (keysOf (if d.any (fun p => p.1 == k) then d else d ++ [(k, "(Not provided)")])).Nodup := by
  by_cases ha : d.any (fun p => p.1 == k) = true
  · rwa [if_pos ha]
  · rw [if_neg ha]
    have hk : k ∉ keysOf d := fun hm => ha ((mem_keysOf_iff_any d k).mpr hm)
    have : keysOf (d ++ [(k, "(Not provided)")]) = keysOf d ++ [k] := by simp [keysOf]
    rw [this]
    simpa [List.nodup_append] using ⟨h, hk⟩

theorem nodup_keysOf_ensureKeys (d : List (String × String))
    (h : (keysOf d).Nodup) : (keysOf (ensureKeys d)).Nodup := by
  simp only [ensureKeys, sectionKeys, List.foldl_cons, List.foldl_nil]
  exact nodup_keysOf_ensure_step _ _ (nodup_keysOf_ensure_step _ _
    (nodup_keysOf_ensure_step _ _ h))

/-! ## Parser-level facts supporting the claims -/

theorem asString_eq_empty_iff (l : List Char) : l.asString = "" ↔ l = [] := by
  constructor
  · intro h
    have h2 := congrArg String.data h
    simpa [List.asString] using h2
  · rintro rfl
    rfl

theorem processVal_ne_empty (key : String) (v : List Char) : processVal key v ≠ "" := by
  unfold processVal
  split_ifs with h
  · decide
  · intro hc
    exact h (by simp [List.isEmpty_iff, (asString_eq_empty_iff _).mp hc])

theorem parse_keys_nodup (text : String) : (keysOf (parse_sections text)).Nodup :=
  nodup_keysOf_ensureKeys _ (nodup_keysOf_buildDict _)

theorem pyScan_key_mem {s : List Char} {k : String}
    (h : k ∈ (pyScan s).map (fun p => p.1)) : k ∈ sectionKeys := by
  rcases List.mem_map.mp h with ⟨p, hp, hfst⟩
  have hpair : (p.1, p.2) ∈ pyScan s := by simpa using hp
  exact hfst ▸ (pyScan_pairs hpair).1

theorem parse_keys_iff (text : String) (k : String) :
    k ∈ keysOf (parse_sections text) ↔ k ∈ sectionKeys := by
  unfold parse_sections
  rw [mem_keysOf_ensureKeys]
  constructor
  · rintro (hm | hm)
    · exact pyScan_key_mem ((mem_keysOf_buildDict _ k).mp hm)
    · exact hm
  · exact Or.inr

theorem parse_absent_placeholder (text : String) (k : String) (hk : k ∈ sectionKeys)
    (hno : hasSub (k.toList ++ [':']) text.toList = false) :
    dget (parse_sections text) k = some "(Not provided)" := by
  unfold parse_sections
  rw [dget_ensureKeys_mem _ _ hk]
  have hnone : dget (buildDict (pyScan text.toList)) k = none := by
    apply dget_eq_none_of_not_mem
    intro hm
    rcases List.mem_map.mp ((mem_keysOf_buildDict _ k).mp hm) with ⟨p, hp, hfst⟩
    have hpair : (p.1, p.2) ∈ pyScan text.toList := by simpa using hp
    have hin := (pyScan_pairs hpair).2
    rw [hfst] at hin
    rw [hasSub_of_occurs hin] at hno
    exact Bool.true_eq_false.mp hno
  rw [hnone]
  rfl

theorem parse_last_wins (text : String) (k : String) (hk : k ∈ sectionKeys) :
    dget (parse_sections text) k =
      some (((((pyScan text.toList).filter (fun p => p.1 == k)).getLast?).map
        (fun p => processVal p.1 p.2)).getD "(Not provided)") := by
  unfold parse_sections
  rw [dget_ensureKeys_mem _ _ hk, dget_buildDict]
  cases ((pyScan text.toList).filter (fun p => p.1 == k)).getLast? <;> rfl

theorem parse_values_ne_empty (text : String) (k : String) (v : String)
    (hv : dget (parse_sections text) k = some v) : v ≠ "" := by
  have hk : k ∈ sectionKeys := by
    have hmem : k ∈ keysOf (parse_sections text) :=
      (dget_isSome_iff _ k).mp (by rw [hv]; rfl)
    exact (parse_keys_iff text k).mp hmem
  rw [parse_last_wins text k hk] at hv
  have hv2 := Option.some.inj hv
  cases hl : ((pyScan text.toList).filter (fun p => p.1 == k)).getLast? with
  | none =>
    rw [hl] at hv2
    rw [← hv2]
    decide
  | some p =>
    rw [hl] at hv2
    rw [← hv2]
    exact processVal_ne_empty p.1 p.2

theorem parse_no_marker_default (text : String)
    (hp : hasSub "Purpose:".toList text.toList = false)
    (hw : hasSub "Working:".toList text.toList = false)
    (he : hasSub "Errors:".toList text.toList = false) :
    parse_sections text =
      [("Purpose", "(Not provided)"), ("Working", "(Not provided)"),
       ("Errors", "(Not provided)")] := by
  unfold parse_sections
  rw [pyScan_eq_nil_of_no_marker hp hw he]
  decide

/-! ## Well-formed marker/body segment texts

The scan recovers the segments of a well-formed segment text
(`goodSegs`): the lemmas here culminate in `scanFuel_segText`.
-/

theorem toList_asString (l : List Char) : (List.asString l).toList = l := rfl

theorem dropWhile_head_not {p : Char → Bool} : ∀ (l : List Char) {c : Char} {cs : List Char},
    l.dropWhile p = c :: cs → p c = false := by
  intro l
  induction l with
  | nil => intro c cs h; simp at h
  | cons a as ih =>
    intro c cs h
    rw [List.dropWhile_cons] at h
    split_ifs at h with ha
    · exact ih h
    · cases h
      simpa using ha

theorem dropWhile_idem (p : Char → Bool) (l : List Char) :
    (l.dropWhile p).dropWhile p = l.dropWhile p := by
  induction l with
  | nil => rfl
  | cons c cs ih =>
    rw [List.dropWhile_cons]
    split_ifs with hc
    · exact ih
    · rw [List.dropWhile_cons, if_neg hc]

theorem pyStrip_dropWhile (b : List Char) :
    pyStrip (b.dropWhile isPyWS) = pyStrip b := by
  unfold pyStrip
  rw [dropWhile_idem]

theorem cleanVal_dropWhile (b : List Char) :
    cleanVal (b.dropWhile isPyWS) = cleanVal b := by
  unfold cleanVal
  rw [pyStrip_dropWhile]

theorem pyStrip_append_ws (x : List Char) (c : Char) (hc : isPyWS c = true) :
    pyStrip (x ++ [c]) = pyStrip x := by
  unfold pyStrip
  rw [List.dropWhile_append]
  split_ifs with h
  · rw [List.isEmpty_iff] at h
    rw [h]
    simp [List.dropWhile_cons, hc, List.dropWhile_nil]
  · rw [List.reverse_append]
    simp only [List.reverse_cons, List.reverse_nil, List.nil_append, List.singleton_append,
      List.dropWhile_cons, hc, if_pos]

theorem cleanVal_append_newline (x : List Char) :
    cleanVal (x ++ ['\n']) = cleanVal x := by
  unfold cleanVal
  rw [pyStrip_append_ws x '\n' (by decide)]

theorem pyStrip_ne_nil (b : List Char) (h : (b.dropWhile isPyWS).isEmpty = false) :
    pyStrip b ≠ [] := by
  rcases hd : b.dropWhile isPyWS with _ | ⟨c, cs⟩
  · rw [hd] at h; simp at h
  · have hc : isPyWS c = false := dropWhile_head_not b hd
    unfold pyStrip
    rw [hd]
    intro hcon
    have h2 : ((c :: cs).reverse.dropWhile isPyWS) = [] := by
      rcases he : (c :: cs).reverse.dropWhile isPyWS with _ | ⟨d, ds⟩
      · rfl
      · rw [he] at hcon; simp at hcon
    have h3 : ∀ a ∈ (c :: cs).reverse, isPyWS a = true :=
      List.dropWhile_eq_nil_iff.mp h2
    have h4 : c ∈ (c :: cs).reverse := by simp
    rw [h3 c h4] at hc
    exact Bool.true_eq_false.mp hc

theorem cleanVal_ne_nil (b : List Char) (h : (b.dropWhile isPyWS).isEmpty = false) :
    cleanVal b ≠ [] := by
  unfold cleanVal
  intro hcon
  exact pyStrip_ne_nil b h (by simpa using hcon)

theorem markerHere_ne_nil {s : List Char} {kr : String × List Char}
    (h : markerHere s = some kr) : s ≠ [] := by
  rintro rfl
  simp [markerHere] at h

theorem not_isPrefixOf_head_ne {a b : Char} {as bs : List Char} (h : (a == b) = false) :
    (a :: as).isPrefixOf (b :: bs) = false := by
  simp only [List.isPrefixOf, h, Bool.false_and]

/-- `markerHere` fires on a marker name from `sectionKeys` followed by a
colon. -/
theorem markerHere_pat (k : String) (z : List Char) (hk : k ∈ sectionKeys) :
    markerHere (k.toList ++ ':' :: z) = some (k, z) := by
  rcases (by simpa [sectionKeys] using hk : k = "Purpose" ∨ k = "Working" ∨ k = "Errors")
    with rfl | rfl | rfl
  · rw [show ("Purpose".toList ++ ':' :: z) = "Purpose:".toList ++ z by
      rw [List.append_cons, show "Purpose".toList ++ [':'] = "Purpose:".toList by decide]]
    unfold markerHere
    rw [if_pos (List.isPrefixOf_iff_prefix.mpr (List.prefix_append _ _)),
      show (8 : Nat) = ("Purpose:".toList).length by decide, List.drop_left]
  · rw [show ("Working".toList ++ ':' :: z) = "Working:".toList ++ z by
      rw [List.append_cons, show "Working".toList ++ [':'] = "Working:".toList by decide]]
    have hexp : "Working:".toList ++ z = 'W' :: ("orking:".toList ++ z) := by
      rw [show "Working:".toList = 'W' :: "orking:".toList from by decide, List.cons_append]
    have hc1 : ("Purpose:".toList.isPrefixOf ("Working:".toList ++ z)) = false := by
      rw [show "Purpose:".toList = 'P' :: "urpose:".toList from by decide, hexp]
      exact not_isPrefixOf_head_ne (by decide)
    unfold markerHere
    rw [if_neg (by simp [hc1]),
      if_pos (List.isPrefixOf_iff_prefix.mpr (List.prefix_append _ _)),
      show (8 : Nat) = ("Working:".toList).length by decide, List.drop_left]
  · rw [show ("Errors".toList ++ ':' :: z) = "Errors:".toList ++ z by
      rw [List.append_cons, show "Errors".toList ++ [':'] = "Errors:".toList by decide]]
    have hexp : "Errors:".toList ++ z = 'E' :: ("rrors:".toList ++ z) := by
      rw [show "Errors:".toList = 'E' :: "rrors:".toList from by decide, List.cons_append]
    have hc1 : ("Purpose:".toList.isPrefixOf ("Errors:".toList ++ z)) = false := by
      rw [show "Purpose:".toList = 'P' :: "urpose:".toList from by decide, hexp]
      exact not_isPrefixOf_head_ne (by decide)
    have hc2 : ("Working:".toList.isPrefixOf ("Errors:".toList ++ z)) = false := by
      rw [show "Working:".toList = 'W' :: "orking:".toList from by decide, hexp]
      exact not_isPrefixOf_head_ne (by decide)
    unfold markerHere
    rw [if_neg (by simp [hc1]), if_neg (by simp [hc2]),
      if_pos (List.isPrefixOf_iff_prefix.mpr (List.prefix_append _ _)),
      show (7 : Nat) = ("Errors:".toList).length by decide, List.drop_left]

theorem capture_stops_at_marker : ∀ (x y : List Char),
    (∀ s ∈ x.tails, s = [] ∨ markerHere (s ++ y) = none) →
    (markerHere y).isSome = true →
    capture (x ++ y) = (x, y) := by
  intro x
  induction x with
  | nil =>
    intro y hx hy
    rcases y with _ | ⟨c, cs⟩
    · simp [markerHere] at hy
    · rw [List.nil_append]
      unfold capture
      rw [if_pos (by simp [hy])]
  | cons c x' ih =>
    intro y hx hy
    have hm : markerHere ((c :: x') ++ y) = none := by
      rcases hx (c :: x') (by simp) with h | h
      · simp at h
      · exact h
    have hy_ne : y ≠ [] := by
      rintro rfl
      simp [markerHere] at hy
    rw [List.cons_append]
    unfold capture
    rw [if_neg ?side]
    case side =>
      intro hcond
      rcases Bool.or_eq_true_iff.mp hcond with h | h
      · rw [show c :: (x' ++ y) = (c :: x') ++ y from rfl, hm] at h
        simp at h
      · have h2 : (x' ++ y).isEmpty = true := (Bool.and_eq_true_iff.mp h).2
        rw [List.isEmpty_iff] at h2
        exact hy_ne (List.append_eq_nil.mp h2).2
    have hrec := ih y (fun s hs => hx s (by rw [List.tails_cons]; exact List.mem_cons_of_mem _ hs)) hy
    rw [hrec]

theorem capture_no_marker : ∀ (x : List Char),
    (∀ s ∈ x.tails, s = [] ∨ markerHere s = none) →
    capture x = (x, []) ∨ ∃ x', x = x' ++ ['\n'] ∧ capture x = (x', ['\n']) := by
  intro x
  induction x with
  | nil => intro hx; left; rfl
  | cons c cs ih =>
    intro hx
    have hm : markerHere (c :: cs) = none := by
      rcases hx (c :: cs) (by simp) with h | h
      · simp at h
      · exact h
    by_cases hd : c = '\n' ∧ cs = []
    · right
      refine ⟨[], by simp [hd.1, hd.2], ?_⟩
      unfold capture
      rw [if_pos (by simp [hd.1, hd.2])]
      rw [hd.1, hd.2]
    · have hcond : ((markerHere (c :: cs)).isSome || (c == '\n' && cs.isEmpty)) = false := by
        rw [hm]
        simp only [Option.isSome_none, Bool.false_or]
        rcases Decidable.em (c = '\n') with hc | hc
        · have hcs : cs ≠ [] := fun h2 => hd ⟨hc, h2⟩
          simp [hc, hcs]
        · simp [hc]
      have hrec := ih (fun s hs => hx s (by rw [List.tails_cons]; exact List.mem_cons_of_mem _ hs))
      unfold capture
      rw [if_neg (by simp [hcond])]
      rcases hrec with h | ⟨x', hx', hc'⟩
      · left
        rw [h]
      · right
        exact ⟨c :: x', by rw [hx', List.cons_append], by rw [hc']⟩

theorem scanFuel_nl : ∀ (m : Nat), scanFuel m ['\n'] = [] := by
  intro m
  match m with
  | 0 => rfl
  | 1 => rfl
  | m + 2 => rfl

/-- The scan recovers well-formed segments: keys in order, and each
captured value cleans to the same string as the segment body. -/
theorem scanFuel_segText : ∀ (segs : List (String × List Char)) (n : Nat),
    (segText segs).length < n → goodSegs segs = true →
    (scanFuel n (segText segs)).map (fun p => (p.1, cleanVal p.2))
      = segs.map (fun s => (s.1, cleanVal s.2)) := by
  intro segs
  induction segs with
  | nil =>
    intro n hn hg
    match n with
    | 0 => rfl
    | n + 1 => rfl
  | cons s rest ih =>
    intro n hn hg
    have hg' := hg
    unfold goodSegs at hg'
    rw [Bool.and_eq_true, Bool.and_eq_true, Bool.and_eq_true] at hg'
    obtain ⟨⟨⟨hk, hb⟩, hgb⟩, hgr⟩ := hg'
    have hkmem : s.1 ∈ sectionKeys := List.mem_of_elem_eq_true hk
    have hbne : (s.2.dropWhile isPyWS).isEmpty = false := by
      cases hbe : (s.2.dropWhile isPyWS).isEmpty
      · rfl
      · rw [hbe] at hb; simp at hb
    have hmk : markerHere (segText (s :: rest)) = some (s.1, s.2 ++ segText rest) :=
      markerHere_pat s.1 _ hkmem
    match n with
    | 0 => omega
    | m + 1 =>
      have hstep : scanFuel (m + 1) (segText (s :: rest)) =
          (s.1, (capture ((s.2 ++ segText rest).dropWhile isPyWS)).1)
            :: scanFuel m (capture ((s.2 ++ segText rest).dropWhile isPyWS)).2 := by
        rcases hne : segText (s :: rest) with _ | ⟨c, cs⟩
        · exact absurd hne (markerHere_ne_nil hmk)
        · rw [hne] at hmk
          show (match markerHere (c :: cs) with
            | some kr => (kr.1, (capture (kr.2.dropWhile isPyWS)).1)
                :: scanFuel m (capture (kr.2.dropWhile isPyWS)).2
            | none => scanFuel m cs) = _
          rw [hmk]
      rw [hstep]
      have hgood : ∀ t ∈ (s.2.dropWhile isPyWS).tails,
          t = [] ∨ markerHere (t ++ segText rest) = none := by
        intro t ht
        have hts : t <:+ s.2.dropWhile isPyWS := (List.mem_tails _ _).mp ht
        have ht2 : t ∈ s.2.tails :=
          (List.mem_tails _ _).mpr (hts.trans (List.dropWhile_suffix isPyWS))
        have h5 : (t.isEmpty || (markerHere (t ++ segText rest)).isNone) = true :=
          List.all_eq_true.mp hgb t ht2
        rcases Bool.or_eq_true_iff.mp h5 with h | h
        · left; exact List.isEmpty_iff.mp h
        · right; exact Option.isNone_iff_eq_none.mp h
      rcases rest with _ | ⟨r, rest'⟩
      · -- last segment: the capture runs to the end of the input
        have hsimp : (s.2 ++ segText ([] : List (String × List Char))).dropWhile isPyWS
            = s.2.dropWhile isPyWS := by
          show (s.2 ++ []).dropWhile isPyWS = _
          rw [List.append_nil]
        rw [hsimp]
        have hgood' : ∀ t ∈ (s.2.dropWhile isPyWS).tails, t = [] ∨ markerHere t = none := by
          intro t ht
          rcases hgood t ht with h | h
          · left; exact h
          · right
            rw [show segText ([] : List (String × List Char)) = [] from rfl,
              List.append_nil] at h
            exact h
        rcases capture_no_marker _ hgood' with hcap | ⟨x', hx', hcap⟩
        · rw [hcap]
          have hm0 : scanFuel m ([] : List Char) = [] := by
            match m with
            | 0 => rfl
            | m + 1 => rfl
          rw [hm0]
          simp only [List.map_cons, List.map_nil, cleanVal_dropWhile]
        · rw [hcap, scanFuel_nl]
          have hcv : cleanVal x' = cleanVal s.2 := by
            rw [← cleanVal_dropWhile s.2, hx', cleanVal_append_newline]
          simp only [List.map_cons, List.map_nil, hcv]
      · -- a further marker follows: the capture stops exactly at it
        have hsplit : (s.2 ++ segText (r :: rest')).dropWhile isPyWS
            = s.2.dropWhile isPyWS ++ segText (r :: rest') := by
          rw [List.dropWhile_append, if_neg (by simp [hbne])]
        have hnext : (markerHere (segText (r :: rest'))).isSome = true := by
          have hr : r.1 ∈ sectionKeys := by
            unfold goodSegs at hgr
            rw [Bool.and_eq_true, Bool.and_eq_true, Bool.and_eq_true] at hgr
            exact List.mem_of_elem_eq_true hgr.1.1.1
          rw [show segText (r :: rest') = r.1.toList ++ ':' :: (r.2 ++ segText rest') from rfl,
            markerHere_pat r.1 _ hr]
          rfl
        have hcap := capture_stops_at_marker (s.2.dropWhile isPyWS) (segText (r :: rest'))
          hgood hnext
        rw [hsplit, hcap]
        have hlen : (segText (r :: rest')).length < m := by
          have hlen2 : (segText (s :: (r :: rest'))).length
              = s.1.toList.length + 1 + s.2.length + (segText (r :: rest')).length := by
            show (s.1.toList ++ ':' :: (s.2 ++ segText (r :: rest'))).length = _
            simp only [List.length_append, List.length_cons]
            omega
          rw [hlen2] at hn
          omega
        simp only [List.map_cons, cleanVal_dropWhile]
        rw [ih m hlen hgr]
        rfl

theorem pyScan_segText (segs : List (String × List Char)) (hg : goodSegs segs = true) :
    (pyScan (segText segs)).map (fun p => (p.1, cleanVal p.2))
      = segs.map (fun s => (s.1, cleanVal s.2)) :=
  scanFuel_segText segs _ (Nat.lt_succ_self _) hg

theorem goodSegs_head {s : String × List Char} {rest : List (String × List Char)}
    (h : goodSegs (s :: rest) = true) :
    s.1 ∈ sectionKeys ∧ (s.2.dropWhile isPyWS).isEmpty = false
      ∧ goodBody s.2 (segText rest) = true ∧ goodSegs rest = true := by
  unfold goodSegs at h
  rw [Bool.and_eq_true, Bool.and_eq_true, Bool.and_eq_true] at h
  obtain ⟨⟨⟨hk, hb⟩, hgb⟩, hgr⟩ := h
  refine ⟨List.mem_of_elem_eq_true hk, ?_, hgb, hgr⟩
  cases hbe : (s.2.dropWhile isPyWS).isEmpty
  · rfl
  · rw [hbe] at hb; simp at hb

theorem processVal_congr (key : String) {v b : List Char} (h : cleanVal v = cleanVal b) :
    processVal key v = processVal key b := by
  unfold processVal stripEchoed
  rw [h]

theorem stripEchoed_no_echo {key : String} {b : List Char}
    (he : isEchoing key b = false) : stripEchoed key (cleanVal b) = cleanVal b := by
  unfold stripEchoed
  unfold isEchoing at he
  rw [if_neg (fun hc => by rw [hc] at he; exact Bool.noConfusion he)]

theorem processVal_no_echo {key : String} {b : List Char}
    (he : isEchoing key b = false) (hne : cleanVal b ≠ []) :
    processVal key b = (cleanVal b).asString := by
  unfold processVal
  rw [stripEchoed_no_echo he, if_neg (fun hc => hne (List.isEmpty_iff.mp hc))]

theorem stripEchoed_echo {key : String} {b : List Char}
    (he : isEchoing key b = true) :
    stripEchoed key (cleanVal b) = pyStrip (lstripColon ((cleanVal b).drop key.length)) := by
  unfold stripEchoed
  unfold isEchoing at he
  rw [if_pos he]

theorem processVal_echo {key : String} {b : List Char}
    (he : isEchoing key b = true) :
    processVal key b =
      (if (pyStrip (lstripColon ((cleanVal b).drop key.length))).isEmpty
       then "(Not provided)"
       else (pyStrip (lstripColon ((cleanVal b).drop key.length))).asString) := by
  unfold processVal
  rw [stripEchoed_echo he]

theorem pyScan_three (b1 b2 b3 : List Char)
    (hg : goodSegs [("Purpose", b1), ("Working", b2), ("Errors", b3)] = true) :
    ∃ v1 v2 v3, pyScan (segText [("Purpose", b1), ("Working", b2), ("Errors", b3)])
        = [("Purpose", v1), ("Working", v2), ("Errors", v3)]
      ∧ cleanVal v1 = cleanVal b1 ∧ cleanVal v2 = cleanVal b2 ∧ cleanVal v3 = cleanVal b3 := by
  have h := pyScan_segText _ hg
  rcases hp : pyScan (segText [("Purpose", b1), ("Working", b2), ("Errors", b3)])
    with _ | ⟨⟨k1, v1⟩, _ | ⟨⟨k2, v2⟩, _ | ⟨⟨k3, v3⟩, rest⟩⟩⟩
  · rw [hp] at h; simp at h
  · rw [hp] at h; simp at h
  · rw [hp] at h; simp at h
  · rw [hp] at h
    simp only [List.map_cons, List.map_nil, List.cons.injEq, Prod.mk.injEq] at h
    obtain ⟨⟨hk1, hv1⟩, ⟨hk2, hv2⟩, ⟨hk3, hv3⟩, hrest⟩ := h
    have hrnil : rest = [] := by
      cases rest
      · rfl
      · simp at hrest
    exact ⟨v1, v2, v3, by rw [hk1, hk2, hk3, hrnil], hv1, hv2, hv3⟩

theorem pyScan_two (k : String) (b1 b2 : List Char)
    (hg : goodSegs [(k, b1), (k, b2)] = true) :
    ∃ v1 v2, pyScan (segText [(k, b1), (k, b2)]) = [(k, v1), (k, v2)]
      ∧ cleanVal v1 = cleanVal b1 ∧ cleanVal v2 = cleanVal b2 := by
  have h := pyScan_segText _ hg
  rcases hp : pyScan (segText [(k, b1), (k, b2)])
    with _ | ⟨⟨k1, v1⟩, _ | ⟨⟨k2, v2⟩, rest⟩⟩
  · rw [hp] at h; simp at h
  · rw [hp] at h; simp at h
  · rw [hp] at h
    simp only [List.map_cons, List.map_nil, List.cons.injEq, Prod.mk.injEq] at h
    obtain ⟨⟨hk1, hv1⟩, ⟨hk2, hv2⟩, hrest⟩ := h
    have hrnil : rest = [] := by
      cases rest
      · rfl
      · simp at hrest
    exact ⟨v1, v2, by rw [hk1, hk2, hrnil], hv1, hv2⟩

theorem pyScan_one (k : String) (b : List Char) (hg : goodSegs [(k, b)] = true) :
    ∃ v, pyScan (segText [(k, b)]) = [(k, v)] ∧ cleanVal v = cleanVal b := by
  have h := pyScan_segText _ hg
  rcases hp : pyScan (segText [(k, b)]) with _ | ⟨⟨k1, v1⟩, rest⟩
  · rw [hp] at h; simp at h
  · rw [hp] at h
    simp only [List.map_cons, List.map_nil, List.cons.injEq, Prod.mk.injEq] at h
    obtain ⟨⟨hk1, hv1⟩, hrest⟩ := h
    have hrnil : rest = [] := by
      cases rest
      · rfl
      · simp at hrest
    exact ⟨v1, by rw [hk1, hrnil], hv1⟩

theorem parse_three_keys (t : String) (v1 v2 v3 : List Char)
    (h : pyScan t.toList = [("Purpose", v1), ("Working", v2), ("Errors", v3)]) :
    parse_sections t =
      [("Purpose", processVal "Purpose" v1), ("Working", processVal "Working" v2),
       ("Errors", processVal "Errors" v3)] := by
  unfold parse_sections buildDict
  rw [h]
  rfl

theorem parse_two_purpose (t : String) (v1 v2 : List Char)
    (h : pyScan t.toList = [("Purpose", v1), ("Purpose", v2)]) :
    parse_sections t =
      [("Purpose", processVal "Purpose" v2), ("Working", "(Not provided)"),
       ("Errors", "(Not provided)")] := by
  unfold parse_sections buildDict
  rw [h]
  rfl

theorem parse_one_purpose (t : String) (v : List Char)
    (h : pyScan t.toList = [("Purpose", v)]) :
    parse_sections t =
      [("Purpose", processVal "Purpose" v), ("Working", "(Not provided)"),
       ("Errors", "(Not provided)")] := by
  unfold parse_sections buildDict
  rw [h]
  rfl

/-! ## Structure of the rendered documents

The renderer definitions mirror the Python loops; the lemmas here prove
the loops produce exactly the header-block/per-file-block structure
described by the spec-shaped `…Block` definitions.
-/

theorem md_step_eq (lines : List String) (fs : String × String) :
    ((lines ++ ["### " ++ fs.1 ++ "\n"])
        ++ sectionKeys.map
            (fun sec => "- **" ++ sec ++ ":** "
              ++ (dget (parse_sections fs.2) sec).getD "(Not provided)"))
        ++ ["\n---\n"]
      = lines ++ mdFileBlock fs := by
  rw [List.append_assoc, List.append_assoc]
  congr 1

theorem create_markdown_lines_eq (ps : String) (fss : List (String × String)) :
    create_markdown_lines ps fss = mdHeaderBlock ps ++ fss.flatMap mdFileBlock := by
  suffices h : ∀ (init : List String),
      fss.foldl (fun lines fs =>
        ((lines ++ ["### " ++ fs.1 ++ "\n"])
          ++ sectionKeys.map
              (fun sec => "- **" ++ sec ++ ":** "
                ++ (dget (parse_sections fs.2) sec).getD "(Not provided)"))
          ++ ["\n---\n"]) init
      = init ++ fss.flatMap mdFileBlock by
    exact h (mdHeaderBlock ps)
  induction fss with
  | nil => intro init; simp
  | cons fs fss ih =>
    intro init
    rw [List.foldl_cons, md_step_eq, ih, List.flatMap_cons, List.append_assoc]

theorem create_docx_eq (ps : String) (fss : List (String × String)) :
    create_docx ps fss = docxHeaderBlock ps ++ fss.flatMap docxFileBlock := by
  unfold create_docx docxHeaderBlock
  congr 1
  suffices h : ∀ (init : List DocxItem),
      fss.foldl (fun items fs => items ++ [DocxItem.heading fs.1 2, DocxItem.para fs.2]) init
        = init ++ fss.flatMap docxFileBlock by
    simpa using h []
  induction fss with
  | nil => intro init; simp
  | cons fs fss ih =>
    intro init
    rw [List.foldl_cons, ih, List.flatMap_cons, List.append_assoc]
    rfl

theorem docxH2_create_docx (ps : String) (fss : List (String × String)) :
    docxH2 (create_docx ps fss) = fss.map (fun f => f.1) := by
  rw [create_docx_eq]
  unfold docxH2
  rw [List.filterMap_append]
  have h1 : (docxHeaderBlock ps).filterMap (fun item =>
      match item with
      | DocxItem.heading t 2 => some t
      | _ => none) = [] := rfl
  rw [h1, List.nil_append]
  induction fss with
  | nil => rfl
  | cons fs fss ih =>
    rw [List.flatMap_cons, List.filterMap_append, ih]
    rfl

/-! ## Pipeline lemmas -/

theorem read_files_empty (tree : List (String × Option String))
    (h : ∀ f ∈ tree, hasAllowedExt f.1 = false) : read_files tree = [] := by
  unfold read_files
  rw [List.filterMap_eq_nil_iff]
  intro f hf
  rw [if_neg (by rw [h f hf]; exact Bool.noConfusion)]

theorem main_stops_on_empty (backend : String → Except String String)
    (tree : List (String × Option String)) (h : read_files tree = []) :
    main backend tree = (0, none) := by
  unfold main
  rw [h]
  rfl

theorem buildFileSummaries_aux (backend : String → Except String String) :
    ∀ (fd : List (String × String)) (acc : List (String × String)),
    (∀ f ∈ fd, f.1 ∉ keysOf acc) → (fd.map (fun f => f.1)).Nodup →
    fd.foldl (fun acc f => upsert acc f.1 (generate_file_summary backend f.1 f.2)) acc
      = acc ++ fd.map (fun f => (f.1, generate_file_summary backend f.1 f.2)) := by
  intro fd
  induction fd with
  | nil => intro acc _ _; simp
  | cons f fd ih =>
    intro acc hfresh hnd
    rw [List.foldl_cons]
    have hf1 : f.1 ∉ keysOf acc := hfresh f (List.mem_cons_self _ _)
    have hup : upsert acc f.1 (generate_file_summary backend f.1 f.2)
        = acc ++ [(f.1, generate_file_summary backend f.1 f.2)] := by
      unfold upsert
      rw [if_neg (fun hc => hf1 ((mem_keysOf_iff_any _ _).mp hc))]
    rw [hup]
    have hnd' : (fd.map (fun f => f.1)).Nodup := by
      rw [List.map_cons, List.nodup_cons] at hnd
      exact hnd.2
    have hnotin : f.1 ∉ fd.map (fun f => f.1) := by
      rw [List.map_cons, List.nodup_cons] at hnd
      exact hnd.1
    have hfresh' : ∀ g ∈ fd, g.1 ∉ keysOf (acc ++ [(f.1, generate_file_summary backend f.1 f.2)]) := by
      intro g hg
      have hkeys : keysOf (acc ++ [(f.1, generate_file_summary backend f.1 f.2)])
          = keysOf acc ++ [f.1] := by simp [keysOf]
      rw [hkeys]
      intro hc
      rcases List.mem_append.mp hc with hc | hc
      · exact hfresh g (List.mem_cons_of_mem _ hg) hc
      · have : g.1 = f.1 := by simpa using hc
        exact hnotin (this ▸ List.mem_map_of_mem (fun f => f.1) hg)
    rw [ih _ hfresh' hnd', List.append_assoc]
    rfl

theorem buildFileSummaries_eq (backend : String → Except String String)
    (fd : List (String × String)) (h : (fd.map (fun f => f.1)).Nodup) :
    buildFileSummaries backend fd
      = fd.map (fun f => (f.1, generate_file_summary backend f.1 f.2)) := by
  unfold buildFileSummaries
  rw [buildFileSummaries_aux backend fd [] (by simp [keysOf]) h]
  rfl

/-! ## Filesystem lemmas for the save/write steps -/

theorem os_makedirs_ok (fs : FS) (d : String) (hd : d ≠ "") :
    os_makedirs fs d = Except.ok
      ⟨if fs.dirs.contains d then fs.dirs else fs.dirs ++ [d], fs.files⟩ := by
  unfold os_makedirs
  rw [if_neg hd]

theorem fsWrite_ok (fs : FS) (p : String) (content : FileData)
    (h : fs.dirs.contains (dirname p) = true) :
    fsWrite fs p content = Except.ok ⟨fs.dirs, upsert fs.files p content⟩ := by
  unfold fsWrite
  rw [if_pos (by rw [h]; simp)]

theorem mem_mkdir_dirs (fs : FS) (d : String) :
    d ∈ (if fs.dirs.contains d then fs.dirs else fs.dirs ++ [d]) := by
  split_ifs with hc
  · exact List.mem_of_elem_eq_true hc
  · simp

theorem create_markdown_io_eq (fs : FS) (ps : String) (sums : List (String × String))
    (path : String) (hd : dirname path ≠ "") :
    create_markdown_io fs ps sums path = Except.ok
      ⟨if fs.dirs.contains (dirname path) then fs.dirs else fs.dirs ++ [dirname path],
       upsert fs.files path (FileData.mdFile (create_markdown ps sums))⟩ := by
  have hcon : (if fs.dirs.contains (dirname path) then fs.dirs
      else fs.dirs ++ [dirname path]).contains (dirname path) = true :=
    List.elem_eq_true_of_mem (mem_mkdir_dirs fs (dirname path))
  unfold create_markdown_io
  rw [os_makedirs_ok fs _ hd]
  exact fsWrite_ok _ path _ hcon

theorem create_markdown_io_ok (fs : FS) (ps : String) (sums : List (String × String))
    (path : String) (hd : dirname path ≠ "") :
    ∃ fs1 : FS, create_markdown_io fs ps sums path = Except.ok fs1
      ∧ dget fs1.files path = some (FileData.mdFile (create_markdown ps sums))
      ∧ dirname path ∈ fs1.dirs
      ∧ create_markdown_io fs1 ps sums path = Except.ok fs1 := by
  refine ⟨_, create_markdown_io_eq fs ps sums path hd, dget_upsert_self _ _ _,
    mem_mkdir_dirs fs (dirname path), ?_⟩
  rw [create_markdown_io_eq _ ps sums path hd]
  have hcon : (if fs.dirs.contains (dirname path) then fs.dirs
      else fs.dirs ++ [dirname path]).contains (dirname path) = true :=
    List.elem_eq_true_of_mem (mem_mkdir_dirs fs (dirname path))
  rw [if_pos hcon, upsert_idem]

theorem create_docx_io_eq (fs : FS) (ps : String) (sums : List (String × String))
    (path : String) (h : fs.dirs.contains (dirname path) = true) :
    create_docx_io fs ps sums path = Except.ok
      ⟨fs.dirs, upsert fs.files path (FileData.docxFile (create_docx ps sums))⟩ :=
  fsWrite_ok fs path _ h

theorem create_docx_io_ok (fs : FS) (ps : String) (sums : List (String × String))
    (path : String) (h : fs.dirs.contains (dirname path) = true) :
    ∃ fs2 : FS, create_docx_io fs ps sums path = Except.ok fs2
      ∧ dget fs2.files path = some (FileData.docxFile (create_docx ps sums))
      ∧ create_docx_io fs2 ps sums path = Except.ok fs2 := by
  refine ⟨_, create_docx_io_eq fs ps sums path h, dget_upsert_self _ _ _, ?_⟩
  rw [create_docx_io_eq
    ⟨fs.dirs, upsert fs.files path (FileData.docxFile (create_docx ps sums))⟩ ps sums path h,
    upsert_idem]

theorem processVal_nil (k : String) (hk : k ∈ sectionKeys) :
    processVal k [] = "(Not provided)" := by
  rcases (by simpa [sectionKeys] using hk : k = "Purpose" ∨ k = "Working" ∨ k = "Errors")
    with rfl | rfl | rfl <;> decide

/-- A present marker whose value-determining (last) captured body is the
empty string yields the placeholder. -/
theorem parse_empty_capture_placeholder (text : String) (k : String) (p : String × List Char)
    (hk : k ∈ sectionKeys)
    (hl : ((pyScan text.toList).filter (fun q => q.1 == k)).getLast? = some p)
    (hv : p.2 = []) :
    dget (parse_sections text) k = some "(Not provided)" := by
  rw [parse_last_wins text k hk, hl]
  have hp : p ∈ (pyScan text.toList).filter (fun q => q.1 == k) :=
    List.mem_of_mem_getLast? (by rw [hl]; rfl)
  have hpk : p.1 = k := by simpa using (List.mem_filter.mp hp).2
  show some (processVal p.1 p.2) = _
  rw [hpk, hv, processVal_nil k hk]

/-- One scanned occurrence of marker `k` determines the `k` field. -/
theorem parse_one_key (t : String) (k : String) (v : List Char) (hk : k ∈ sectionKeys)
    (h : pyScan t.toList = [(k, v)]) :
    dget (parse_sections t) k = some (processVal k v) := by
  rw [parse_last_wins t k hk, h]
  have hf : ([(k, v)].filter (fun q => q.1 == k)) = [(k, v)] := by
    simp [List.filter_cons]
  rw [hf]
  rfl

/-! ## The claims -/

/-- C1: for every input string, `parse_sections` is total and returns a
mapping with exactly the three keys Purpose, Working, Errors (present and
without duplicates); any marker whose literal `Name:` pattern is absent
from the input maps to the placeholder "(Not provided)"; no field value
is ever the empty string; and a marker that is present but whose
value-determining (last) captured body is the empty string maps to the
placeholder — in particular the empty input and marker-free inputs yield
all three placeholders. -/
theorem C1_parser_total_exact_keys (text : String) :
    (keysOf (parse_sections text)).Nodup
    ∧ (∀ k, k ∈ keysOf (parse_sections text) ↔ k ∈ sectionKeys)
    ∧ (∀ k, k ∈ sectionKeys → hasSub (k.toList ++ [':']) text.toList = false →
        dget (parse_sections text) k = some "(Not provided)")
    ∧ (∀ k v, dget (parse_sections text) k = some v → v ≠ "")
    ∧ (∀ k p, k ∈ sectionKeys →
        ((pyScan text.toList).filter (fun q => q.1 == k)).getLast? = some p →
        p.2 = [] →
        dget (parse_sections text) k = some "(Not provided)") :=
  ⟨parse_keys_nodup text, parse_keys_iff text,
   fun k hk hno => parse_absent_placeholder text k hk hno,
   fun k v hv => parse_values_ne_empty text k v hv,
   fun k p hk hl hv => parse_empty_capture_placeholder text k p hk hl hv⟩

/-- Witness for C1 at the empty input, at a marker-free input, and at an
input whose `Purpose:` marker is present with an empty captured body
(`Working:` follows immediately). -/
theorem C1_parser_total_exact_keys_witness :
    dget (parse_sections "") "Purpose" = some "(Not provided)"
    ∧ dget (parse_sections "just prose, no labels") "Errors" = some "(Not provided)"
    ∧ dget (parse_sections "Purpose:Working: x") "Purpose" = some "(Not provided)" :=
  ⟨(C1_parser_total_exact_keys "").2.2.1 "Purpose" (by decide) (by decide),
   (C1_parser_total_exact_keys "just prose, no labels").2.2.1 "Errors" (by decide) (by decide),
   (C1_parser_total_exact_keys "Purpose:Working: x").2.2.2.2 "Purpose" ("Purpose", [])
     (by decide) (by decide) (by decide)⟩

/-- C2 counterexample: the input has all three markers in canonical order
with non-empty bodies, yet the Purpose field is not the trimmed body
"Purposeful": the code strips the body's leading "Purpose" (the
case-insensitive echo check of line 113 fires without any colon) and
returns "ful". -/
theorem C2_counterexample :
    dget (parse_sections "Purpose: Purposeful\nWorking: w\nErrors: e") "Purpose" = some "ful"
    ∧ some "ful" ≠ some "Purposeful" := by
  constructor
  · decide
  · decide

/-- C2 (amended): for raw text `Purpose:<b1>Working:<b2>Errors:<b3>` in
canonical order where no marker pattern occurs inside a body, each body
has a non-whitespace character, and no cleaned body begins
case-insensitively with its own marker name, `parse_sections` returns
exactly the three bodies, trimmed and with each newline replaced by a
space. -/
theorem C2_canonical_order_recovers_bodies (b1 b2 b3 : List Char)
    (hg : goodSegs [("Purpose", b1), ("Working", b2), ("Errors", b3)] = true)
    (e1 : isEchoing "Purpose" b1 = false)
    (e2 : isEchoing "Working" b2 = false)
    (e3 : isEchoing "Errors" b3 = false) :
    parse_sections ((segText [("Purpose", b1), ("Working", b2), ("Errors", b3)]).asString)
      = [("Purpose", (cleanVal b1).asString), ("Working", (cleanVal b2).asString),
         ("Errors", (cleanVal b3).asString)] := by
  obtain ⟨v1, v2, v3, hscan, hv1, hv2, hv3⟩ := pyScan_three b1 b2 b3 hg
  have hb1 := (goodSegs_head hg).2.1
  have hg2 := (goodSegs_head hg).2.2.2
  have hb2 := (goodSegs_head hg2).2.1
  have hg3 := (goodSegs_head hg2).2.2.2
  have hb3 := (goodSegs_head hg3).2.1
  have h := parse_three_keys _ v1 v2 v3 (by rw [toList_asString]; exact hscan)
  rw [h, processVal_congr "Purpose" hv1, processVal_congr "Working" hv2,
    processVal_congr "Errors" hv3,
    processVal_no_echo e1 (cleanVal_ne_nil b1 hb1),
    processVal_no_echo e2 (cleanVal_ne_nil b2 hb2),
    processVal_no_echo e3 (cleanVal_ne_nil b3 hb3)]

/-- Witness for the amended C2 at a concrete canonical-order text with
internal whitespace and newlines in the bodies. -/
theorem C2_canonical_order_recovers_bodies_witness :
    parse_sections ((segText [("Purpose", " reads the config\n".toList),
        ("Working", " parses\neach line\n".toList),
        ("Errors", " none seen".toList)]).asString)
      = [("Purpose", "reads the config"), ("Working", "parses each line"),
         ("Errors", "none seen")] := by
  rw [C2_canonical_order_recovers_bodies _ _ _ (by decide) (by decide) (by decide) (by decide)]
  decide

/-- C3: last-write-wins.  First, fully generally: for every text and
marker, the returned value is built from the last scanned occurrence of
that marker (or the placeholder when there is none).  Second, for a text
in which `Purpose:` occurs twice with well-formed bodies, the value is
the cleaned second body; the first body is discarded. -/
theorem C3_last_write_wins :
    (∀ (text : String) (k : String), k ∈ sectionKeys →
      dget (parse_sections text) k =
        some (((((pyScan text.toList).filter (fun p => p.1 == k)).getLast?).map
          (fun p => processVal p.1 p.2)).getD "(Not provided)"))
    ∧ (∀ b1 b2 : List Char,
        goodSegs [("Purpose", b1), ("Purpose", b2)] = true →
        isEchoing "Purpose" b2 = false →
        dget (parse_sections ((segText [("Purpose", b1), ("Purpose", b2)]).asString)) "Purpose"
          = some ((cleanVal b2).asString)) := by
  constructor
  · exact parse_last_wins
  · intro b1 b2 hg he
    obtain ⟨v1, v2, hscan, hv1, hv2⟩ := pyScan_two "Purpose" b1 b2 hg
    have hb2 := (goodSegs_head (goodSegs_head hg).2.2.2).2.1
    have h := parse_two_purpose _ v1 v2 (by rw [toList_asString]; exact hscan)
    rw [h]
    show some (processVal "Purpose" v2) = _
    rw [processVal_congr "Purpose" hv2, processVal_no_echo he (cleanVal_ne_nil b2 hb2)]

/-- Witness for C3: with two `Purpose:` occurrences the second body wins. -/
theorem C3_last_write_wins_witness :
    dget (parse_sections ((segText [("Purpose", " first draft".toList),
        ("Purpose", " final text".toList)]).asString)) "Purpose" = some "final text" := by
  rw [C3_last_write_wins.2 _ _ (by decide) (by decide)]
  decide

/-- C4 counterexample: the captured value "Purposeful design" does not
begin with "Purpose:" (marker name followed by a colon), so per the claim
it should be returned unchanged; the code nonetheless strips the leading
"Purpose" and returns "ful design". -/
theorem C4_counterexample :
    dget (parse_sections "Purpose: Purposeful design") "Purpose" = some "ful design"
    ∧ some "ful design" ≠ some "Purposeful design" := by
  constructor
  · decide
  · decide

/-- C4 (amended): for each of the three markers, the label-echo strip
fires exactly when the cleaned captured value begins case-insensitively
with that marker's name, colon or not: in that case the marker name
(its own length of characters) is removed, then leading colons, then
surrounding whitespace (with the placeholder if nothing remains);
otherwise the cleaned value is returned unchanged. -/
theorem C4_echo_strip_condition (k : String) (b : List Char)
    (hg : goodSegs [(k, b)] = true) :
    (isEchoing k b = true →
      dget (parse_sections ((segText [(k, b)]).asString)) k
        = some (if (pyStrip (lstripColon ((cleanVal b).drop k.length))).isEmpty
            then "(Not provided)"
            else (pyStrip (lstripColon ((cleanVal b).drop k.length))).asString))
    ∧ (isEchoing k b = false →
      dget (parse_sections ((segText [(k, b)]).asString)) k
        = some ((cleanVal b).asString)) := by
  have hk : k ∈ sectionKeys := (goodSegs_head hg).1
  obtain ⟨v, hscan, hv⟩ := pyScan_one k b hg
  have hb := (goodSegs_head hg).2.1
  have h := parse_one_key _ k v hk (by rw [toList_asString]; exact hscan)
  constructor
  · intro he
    rw [h, processVal_congr k hv, processVal_echo he]
  · intro he
    rw [h, processVal_congr k hv, processVal_no_echo he (cleanVal_ne_nil b hb)]

/-- Witness for the amended C4 at all three markers: a `Working` body
echoing the label with a colon is stripped after the 7-character name, an
`Errors` body echoing the label without any colon is stripped after its
6-character name, and a non-echoing `Purpose` body is returned
unchanged. -/
theorem C4_echo_strip_condition_witness :
    dget (parse_sections ((segText [("Working", " working: fine".toList)]).asString))
        "Working" = some "fine"
    ∧ dget (parse_sections ((segText [("Errors", " Errorsome cases".toList)]).asString))
        "Errors" = some "ome cases"
    ∧ dget (parse_sections ((segText [("Purpose", " a fine tool".toList)]).asString))
        "Purpose" = some "a fine tool" := by
  refine ⟨?_, ?_, ?_⟩
  · rw [(C4_echo_strip_condition "Working" _ (by decide)).1 (by decide)]
    decide
  · rw [(C4_echo_strip_condition "Errors" _ (by decide)).1 (by decide)]
    decide
  · rw [(C4_echo_strip_condition "Purpose" _ (by decide)).2 (by decide)]
    decide

/-- C5 counterexample: in the Markdown output the "Project Level
Summary" and "File Level Summaries" headings are emitted at level 2
(`## `), not level 1 (`# `) as the claim states. -/
theorem C5_counterexample :
    "## Project Level Summary\n" ∈ create_markdown_lines "S" [("a.py", "T")]
    ∧ "# Project Level Summary\n" ∉ create_markdown_lines "S" [("a.py", "T")]
    ∧ "# Project Level Summary" ∉ create_markdown_lines "S" [("a.py", "T")]
    ∧ "## File Level Summaries\n" ∈ create_markdown_lines "S" [("a.py", "T")]
    ∧ "# File Level Summaries\n" ∉ create_markdown_lines "S" [("a.py", "T")] := by
  decide

/-- C5 (amended): for every project summary and file-summary mapping the
Markdown renderer emits exactly: H1 "Project Documentation", H2 "Project
Level Summary" with the stripped summary body and a horizontal rule, H2
"File Level Summaries", and per file an H3 heading with the file name,
the three bullets `- **Purpose:** …`, `- **Working:** …`,
`- **Errors:** …` in that fixed order, and a horizontal rule. -/
theorem C5_markdown_structure (ps : String) (fss : List (String × String))
    (_hne : fss ≠ []) :
    create_markdown ps fss
      = String.intercalate "\n" (mdHeaderBlock ps ++ fss.flatMap mdFileBlock) := by
  unfold create_markdown
  rw [create_markdown_lines_eq]

/-- Witness for the amended C5: the fully evaluated Markdown document of
a one-file mapping. -/
theorem C5_markdown_structure_witness :
    create_markdown "S" [("a.py", "Purpose: p\nWorking: w\nErrors: e")]
      = "# Project Documentation\n\n## Project Level Summary\n\nS\n\n---\n\n## File Level Summaries\n\n### a.py\n\n- **Purpose:** p\n- **Working:** w\n- **Errors:** e\n\n---\n" := by
  rw [C5_markdown_structure "S" _ (by decide)]
  decide

/-- C6: whatever exception the backend call raises, `generate_text`
returns exactly the sentinel string "(Error during generation)" instead
of propagating it; being a total function of the backend outcome, a
failed request cannot crash the pipeline. -/
theorem C6_backend_failure_sentinel (e : String) :
    generate_text (Except.error e) = "(Error during generation)" := rfl

/-- C7: when every file of the extracted tree is outside the fixed
allowed-extension set, `read_files` returns the empty sequence and
`main` stops cleanly: zero backend calls and no rendered outputs. -/
theorem C7_empty_corpus_clean_stop (backend : String → Except String String)
    (tree : List (String × Option String))
    (h : ∀ f ∈ tree, hasAllowedExt f.1 = false) :
    read_files tree = [] ∧ main backend tree = (0, none) := by
  have hr := read_files_empty tree h
  exact ⟨hr, main_stops_on_empty backend tree hr⟩

/-- Witness for C7 at a tree of two non-source files. -/
theorem C7_empty_corpus_clean_stop_witness :
    read_files [("README.md", some "# hi"), ("data.txt", some "1,2,3")] = []
    ∧ main (fun p => Except.ok p) [("README.md", some "# hi"), ("data.txt", some "1,2,3")]
        = (0, none) :=
  C7_empty_corpus_clean_stop _ _ (by decide)

/-- C8: with distinct file names, the orchestrator's file-summary mapping
lists exactly the collector's files in traversal order, and both
renderers emit the per-file sections in that same order: the docx
level-2 headings are the traversal-ordered names, and the Markdown lines
are the header block followed by the per-file blocks in mapping order. -/
theorem C8_traversal_order (backend : String → Except String String)
    (file_data : List (String × String)) (ps : String)
    (h : (file_data.map (fun f => f.1)).Nodup) :
    buildFileSummaries backend file_data
        = file_data.map (fun f => (f.1, generate_file_summary backend f.1 f.2))
    ∧ keysOf (buildFileSummaries backend file_data) = file_data.map (fun f => f.1)
    ∧ docxH2 (create_docx ps (buildFileSummaries backend file_data))
        = file_data.map (fun f => f.1)
    ∧ create_markdown_lines ps (buildFileSummaries backend file_data)
        = mdHeaderBlock ps ++ (buildFileSummaries backend file_data).flatMap mdFileBlock := by
  have hb := buildFileSummaries_eq backend file_data h
  refine ⟨hb, ?_, ?_, create_markdown_lines_eq ps _⟩
  · rw [hb]
    unfold keysOf
    rw [List.map_map]
    rfl
  · rw [docxH2_create_docx ps _, hb, List.map_map]
    rfl

/-- Witness for C8 at a two-file corpus in non-alphabetical traversal
order: the mapping and the headings keep `zeta.py` before `alpha.py`. -/
theorem C8_traversal_order_witness :
    keysOf (buildFileSummaries (fun _ => Except.error "down")
        [("zeta.py", "b"), ("alpha.py", "a")]) = ["zeta.py", "alpha.py"]
    ∧ docxH2 (create_docx "S" (buildFileSummaries (fun _ => Except.error "down")
        [("zeta.py", "b"), ("alpha.py", "a")])) = ["zeta.py", "alpha.py"] :=
  ⟨(C8_traversal_order (fun _ => Except.error "down") _ "S" (by decide)).2.1,
   (C8_traversal_order (fun _ => Except.error "down") _ "S" (by decide)).2.2.1⟩

/-- C9 counterexample: on a filesystem with no directories, the docx
renderer fails with `FileNotFoundError` instead of creating its output
directory — only `main` creates it, before calling the renderer. -/
theorem C9_counterexample :
    create_docx_io ⟨[], []⟩ "S" [("a.py", "T")] "outputs/doc_documentation.docx"
      = Except.error "FileNotFoundError" := rfl

/-- C9 (amended): for every target path with a non-empty directory
component, the Markdown renderer creates the output directory if absent
and fully overwrites any pre-existing file, and re-running it on the
resulting state reproduces exactly the same state; the docx renderer
fully overwrites and is likewise idempotent, but only when its output
directory already exists (the pipeline creates it before calling). -/
theorem C9_renderer_write_semantics (fs : FS) (ps : String)
    (sums : List (String × String)) (path : String) (hd : dirname path ≠ "") :
    (∃ fs1 : FS, create_markdown_io fs ps sums path = Except.ok fs1
      ∧ dget fs1.files path = some (FileData.mdFile (create_markdown ps sums))
      ∧ dirname path ∈ fs1.dirs
      ∧ create_markdown_io fs1 ps sums path = Except.ok fs1)
    ∧ (fs.dirs.contains (dirname path) = true →
      ∃ fs2 : FS, create_docx_io fs ps sums path = Except.ok fs2
        ∧ dget fs2.files path = some (FileData.docxFile (create_docx ps sums))
        ∧ create_docx_io fs2 ps sums path = Except.ok fs2) :=
  ⟨create_markdown_io_ok fs ps sums path hd,
   fun h => create_docx_io_ok fs ps sums path h⟩

/-- Witness for the amended C9: writing over a pre-existing file from an
empty filesystem (markdown) and a filesystem already holding the output
directory (docx). -/
theorem C9_renderer_write_semantics_witness :
    (∃ fs1 : FS, create_markdown_io ⟨[], [("outputs/d.md", FileData.mdFile "old")]⟩
        "S" [("a.py", "T")] "outputs/d.md" = Except.ok fs1
      ∧ dget fs1.files "outputs/d.md"
          = some (FileData.mdFile (create_markdown "S" [("a.py", "T")]))
      ∧ dirname "outputs/d.md" ∈ fs1.dirs
      ∧ create_markdown_io fs1 "S" [("a.py", "T")] "outputs/d.md" = Except.ok fs1)
    ∧ (∃ fs2 : FS, create_docx_io ⟨["outputs"], []⟩ "S" [("a.py", "T")] "outputs/d.docx"
        = Except.ok fs2
      ∧ dget fs2.files "outputs/d.docx"
          = some (FileData.docxFile (create_docx "S" [("a.py", "T")]))
      ∧ create_docx_io fs2 "S" [("a.py", "T")] "outputs/d.docx" = Except.ok fs2) :=
  ⟨(C9_renderer_write_semantics ⟨[], [("outputs/d.md", FileData.mdFile "old")]⟩
      "S" [("a.py", "T")] "outputs/d.md" (by decide)).1,
   (C9_renderer_write_semantics ⟨["outputs"], []⟩
      "S" [("a.py", "T")] "outputs/d.docx" (by decide)).2 (by decide)⟩

/-- C10: marker matching is case-sensitive: whenever the exact-case
patterns `Purpose:`, `Working:`, `Errors:` are absent — as in an input
whose labels appear only in a different letter case — all three fields
are the placeholder. -/
theorem C10_markers_case_sensitive (text : String)
    (hp : hasSub "Purpose:".toList text.toList = false)
    (hw : hasSub "Working:".toList text.toList = false)
    (he : hasSub "Errors:".toList text.toList = false) :
    parse_sections text =
      [("Purpose", "(Not provided)"), ("Working", "(Not provided)"),
       ("Errors", "(Not provided)")] :=
  parse_no_marker_default text hp hw he

/-- Witness for C10 at an input with all-lowercase labels. -/
theorem C10_markers_case_sensitive_witness :
    parse_sections "purpose: demo\nworking: loops\nerrors: none" =
      [("Purpose", "(Not provided)"), ("Working", "(Not provided)"),
       ("Errors", "(Not provided)")] :=
  C10_markers_case_sensitive _ (by decide) (by decide) (by decide)

end Documenter
